import Mathlib

/-!
# Verification of the echo-chat message pipeline

Shallow embedding of the core algorithms of the echo-chat repository:

* `src/sms_to_knowledge_base.py` — conversation segmentation
  (`assign_conversation_ids`) and the sms-import transformation
  (`sms_db_to_knowledge_base`);
* `src/qdrant_uploader.py` — the batched dual-embedding upload pipeline
  (`upload_knowledge_base_to_qdrant`), modelled as an event trace;
* `src/create_facts.py` — the fact-extraction orchestrator
  (`get_knowledge_base_messages`, `extract_facts_from_conversation`, `main`)
  and its semaphore-based admission gate, modelled as a step relation.

Python real numbers are modelled exactly as rationals (`ℚ`); Python `dict`
records become Lean structures; fallible code returns `Except`/`Option`;
external collaborators (embedding models, the generative agent, SQLite) are
parameters of the definitions.
-/

namespace EchoChat

/-! ## Conversation segmentation (`src/sms_to_knowledge_base.py`)

A prepared message, as built by the first pass of `sms_db_to_knowledge_base`:
a Python dict with keys `original_id`, `text`, `is_from_me`, `date`,
`timestamp_seconds`, to which `assign_conversation_ids` adds the key
`conversation_id` (modelled as an `Option String`, `none` = key absent). -/
structure Msg where
  original_id : ℤ
  text : String
  is_from_me : Bool
  date : String
  timestamp_seconds : ℚ
  conversation_id : Option String := none
deriving DecidableEq, Repr

/-- The label `f'conv_{c}'` given to conversation number `c`. -/
def convLabel (c : ℕ) : String := "conv_" ++ toString c

/-- Overwrite (Python: `msg['conversation_id'] = f'conv_{c}'`). -/
def setConv (m : Msg) (c : ℕ) : Msg := { m with conversation_id := some (convLabel c) }

/-- Erase the `conversation_id` key, keeping every other field. -/
def eraseConv (m : Msg) : Msg := { m with conversation_id := none }

/-- The gap comparison of `assign_conversation_ids`:
`time_diff_minutes = (msg.ts - prev.ts) / 60 > time_gap_threshold_minutes`. -/
def gapExceeds (G : ℚ) (prev cur : ℚ) : Bool := decide ((cur - prev) / 60 > G)

/-- The `for` loop of `assign_conversation_ids` from the second message on:
`c` is the running `current_conversation_id`, `prev` the previous message's
`timestamp_seconds` (the loop reads it from the already-appended copy, which
holds the unmodified timestamp). -/
def assignLoop (G : ℚ) : ℕ → ℚ → List Msg → List Msg
  | _, _, [] => []
  | c, prev, m :: rest =>
    let c' := if gapExceeds G prev m.timestamp_seconds then c + 1 else c
    setConv m c' :: assignLoop G c' m.timestamp_seconds rest

/-- `assign_conversation_ids(messages, time_gap_threshold_minutes)` from
`src/sms_to_knowledge_base.py`.

The Python function assigns `msg['conversation_id']` in place on each dict of
the input list and appends those same dict objects to the returned list, so
after the call the returned list and the caller's input list hold the same
(mutated) records.  This embedding returns that common final state: the input
records with `conversation_id` overwritten. -/
def assign_conversation_ids (messages : List Msg) (G : ℚ) : List Msg :=
  match messages with
  | [] => []
  | m :: rest => setConv m 0 :: assignLoop G 0 m.timestamp_seconds rest

/-- Number of boundary gaps among the first `i` gaps of the timestamp list
`ts`: the count of indices `1 ≤ j ≤ i` with `(ts[j] - ts[j-1]) / 60 > G`.
This is the claim-side characterisation of the conversation counter. -/
def convIndexSpec (G : ℚ) (ts : List ℚ) (i : ℕ) : ℕ :=
  ((ts.zip ts.tail).take i).countP (fun p => gapExceeds G p.1 p.2)

theorem assignLoop_length (G : ℚ) (c : ℕ) (prev : ℚ) (l : List Msg) :
    (assignLoop G c prev l).length = l.length := by
  induction l generalizing c prev with
  | nil => rfl
  | cons m rest ih => simp [assignLoop, ih]

theorem assign_length (msgs : List Msg) (G : ℚ) :
    (assign_conversation_ids msgs G).length = msgs.length := by
  cases msgs with
  | nil => rfl
  | cons m rest => simp [assign_conversation_ids, assignLoop_length]

theorem assignLoop_elem (G : ℚ) (l : List Msg) (c : ℕ) (prev : ℚ) (i : ℕ) :
    (assignLoop G c prev l)[i]? =
      l[i]?.map (fun m =>
        setConv m (c + (((prev :: l.map Msg.timestamp_seconds).zip
          (l.map Msg.timestamp_seconds)).take (i + 1)).countP
            (fun p => gapExceeds G p.1 p.2))) := by
  induction l generalizing c prev i with
  | nil => simp [assignLoop]
  | cons m rest ih =>
    cases i with
    | zero =>
      simp only [assignLoop, List.map_cons, List.zip_cons_cons, List.take_succ_cons,
        List.take_zero, List.countP_cons, List.countP_nil, List.getElem?_cons_zero,
        Option.map_some]
      by_cases hg : gapExceeds G prev m.timestamp_seconds <;> simp [hg]
    | succ j =>
      simp only [assignLoop, List.getElem?_cons_succ, ih, List.map_cons,
        List.zip_cons_cons, List.take_succ_cons, List.countP_cons]
      by_cases hg : gapExceeds G prev m.timestamp_seconds <;>
        simp [hg, Nat.add_comm, Nat.add_assoc, Nat.add_left_comm]

theorem assign_elem (msgs : List Msg) (G : ℚ) (i : ℕ) :
    (assign_conversation_ids msgs G)[i]? =
      msgs[i]?.map (fun m =>
        setConv m (convIndexSpec G (msgs.map Msg.timestamp_seconds) i)) := by
  cases msgs with
  | nil => simp [assign_conversation_ids]
  | cons m rest =>
    cases i with
    | zero => simp [assign_conversation_ids, convIndexSpec]
    | succ j =>
      simp only [assign_conversation_ids, List.getElem?_cons_succ, assignLoop_elem,
        convIndexSpec, List.map_cons, List.tail_cons, List.zip_cons_cons,
        List.take_succ_cons, List.countP_cons]
      simp [gapExceeds]

theorem convIndexSpec_mono (G : ℚ) (ts : List ℚ) {i j : ℕ} (hij : i ≤ j) :
    convIndexSpec G ts i ≤ convIndexSpec G ts j := by
  unfold convIndexSpec
  have h : (ts.zip ts.tail).take i = ((ts.zip ts.tail).take j).take i := by
    rw [List.take_take, Nat.min_eq_left hij]
  rw [h]
  exact List.Sublist.countP_le _ (List.take_sublist _ _)

@[simp] theorem eraseConv_setConv (m : Msg) (c : ℕ) :
    eraseConv (setConv m c) = eraseConv m := rfl

@[simp] theorem conversationId_setConv (m : Msg) (c : ℕ) :
    (setConv m c).conversation_id = some (convLabel c) := rfl

theorem assign_map_conversationId (msgs : List Msg) (G : ℚ) :
    (assign_conversation_ids msgs G).map Msg.conversation_id =
      (List.range msgs.length).map
        (fun i => some (convLabel (convIndexSpec G (msgs.map Msg.timestamp_seconds) i))) := by
  apply List.ext_getElem?
  intro i
  simp only [List.getElem?_map, assign_elem]
  by_cases h : i < msgs.length
  · rw [List.getElem?_eq_getElem h, List.getElem?_range h]
    simp
  · rw [List.getElem?_eq_none (le_of_not_lt h),
      List.getElem?_eq_none (by simpa using le_of_not_lt h)]
    rfl

theorem assign_get_conv (msgs : List Msg) (G : ℚ) (i : ℕ)
    (h : i < (assign_conversation_ids msgs G).length) :
    ((assign_conversation_ids msgs G).get ⟨i, h⟩).conversation_id
      = some (convLabel (convIndexSpec G (msgs.map Msg.timestamp_seconds) i)) := by
  have hlen : i < msgs.length := by rwa [assign_length] at h
  have he := assign_elem msgs G i
  rw [List.getElem?_eq_getElem hlen, Option.map_some', List.getElem?_eq_getElem h] at he
  rw [List.get_eq_getElem, Option.some_inj.mp he]
  exact conversationId_setConv _ _

theorem assign_map_eraseConv (msgs : List Msg) (G : ℚ) :
    (assign_conversation_ids msgs G).map eraseConv = msgs.map eraseConv := by
  apply List.ext_getElem?
  intro i
  simp only [List.getElem?_map, assign_elem, Option.map_map]
  have hc : eraseConv ∘
      (fun m => setConv m (convIndexSpec G (msgs.map Msg.timestamp_seconds) i)) =
        eraseConv := funext fun m => rfl
  rw [hc]

/-- A message carrying only a timestamp, for concrete test inputs. -/
def mkMsgTs (t : ℚ) : Msg :=
  { original_id := 0, text := "", is_from_me := false, date := "", timestamp_seconds := t }

/-- The spec's worked example: timestamps `[0, 60, 3000]` seconds,
threshold 30 minutes (= 1800 seconds). -/
def specExampleMsgs : List Msg := [mkMsgTs 0, mkMsgTs 60, mkMsgTs 3000]

/-- C1: for every timestamp-sorted message list and gap threshold `G` (in
minutes), `assign_conversation_ids` preserves length, maps the empty list to
the empty list, labels message `i` with `conv_c` where `c` counts the gaps
among the first `i` gaps whose size in minutes strictly exceeds `G` (an
exactly-equal gap does not count), labels the first message `conv_0`, and the
conversation index is non-decreasing along the sequence. -/
theorem conversation_segmentation_correct (msgs : List Msg) (G : ℚ)
    (hsorted : List.Sorted (· ≤ ·) (msgs.map Msg.timestamp_seconds)) :
    (assign_conversation_ids msgs G).length = msgs.length
    ∧ (msgs = [] → assign_conversation_ids msgs G = [])
    ∧ (∀ i (h : i < (assign_conversation_ids msgs G).length),
        ((assign_conversation_ids msgs G).get ⟨i, h⟩).conversation_id
          = some (convLabel (convIndexSpec G (msgs.map Msg.timestamp_seconds) i)))
    ∧ (∀ h0 : 0 < (assign_conversation_ids msgs G).length,
        ((assign_conversation_ids msgs G).get ⟨0, h0⟩).conversation_id = some "conv_0")
    ∧ (∀ i j, i ≤ j →
        convIndexSpec G (msgs.map Msg.timestamp_seconds) i
          ≤ convIndexSpec G (msgs.map Msg.timestamp_seconds) j) := by
  refine ⟨assign_length msgs G, fun h => by subst h; rfl,
    fun i h => assign_get_conv msgs G i h, fun h0 => ?_,
    fun i j hij => convIndexSpec_mono G _ hij⟩
  rw [assign_get_conv msgs G 0 h0]
  have h00 : convIndexSpec G (msgs.map Msg.timestamp_seconds) 0 = 0 := by
    simp [convIndexSpec]
  rw [h00]
  decide

/-- Witness for C1 at the spec's worked example (`[0, 60, 3000]` seconds,
`G = 30` minutes): ids are `conv_0`, `conv_0`, `conv_1`. -/
theorem conversation_segmentation_correct_witness :
    ((assign_conversation_ids specExampleMsgs 30).get
        ⟨1, by rw [assign_length]; decide⟩).conversation_id = some "conv_0"
    ∧ ((assign_conversation_ids specExampleMsgs 30).get
        ⟨2, by rw [assign_length]; decide⟩).conversation_id = some "conv_1" := by
  have hs : List.Sorted (· ≤ ·) (specExampleMsgs.map Msg.timestamp_seconds) := by
    simp [specExampleMsgs, mkMsgTs, List.sorted_cons]
    norm_num
  have h := conversation_segmentation_correct specExampleMsgs 30 hs
  have hg1 : gapExceeds 30 0 60 = false := by
    simp only [gapExceeds, decide_eq_false_iff_not]
    norm_num
  have hg2 : gapExceeds 30 60 3000 = true := by
    simp only [gapExceeds, decide_eq_true_eq]
    norm_num
  constructor
  · rw [h.2.2.1 1 (by rw [assign_length]; decide)]
    have hc : convIndexSpec 30 (specExampleMsgs.map Msg.timestamp_seconds) 1 = 0 := by
      simp [convIndexSpec, specExampleMsgs, mkMsgTs, hg1]
    rw [hc]
    decide
  · rw [h.2.2.1 2 (by rw [assign_length]; decide)]
    have hc : convIndexSpec 30 (specExampleMsgs.map Msg.timestamp_seconds) 2 = 1 := by
      simp [convIndexSpec, specExampleMsgs, mkMsgTs, hg1, hg2]
    rw [hc]
    decide

/-- A concrete record whose `conversation_id` key is absent before the call. -/
def msgNoConv : Msg :=
  { original_id := 1, text := "hello", is_from_me := true,
    date := "2020-01-01T00:00:00", timestamp_seconds := 5, conversation_id := none }

/-- C8 counterexample: `assign_conversation_ids` does not leave the caller's
records unchanged.  The Python function sets `msg['conversation_id']` on each
input dict in place and returns the same dict objects, so the post-call state
of the input record (computed here) differs from its pre-call state: the
record gains `conversation_id = 'conv_0'`. -/
theorem assign_mutates_input_records :
    assign_conversation_ids [msgNoConv] 30 ≠ [msgNoConv]
    ∧ assign_conversation_ids [msgNoConv] 30
        = [{ msgNoConv with conversation_id := some "conv_0" }] := by decide

/-- C8 (amended): `assign_conversation_ids` is deterministic and its labels
depend only on the timestamps and the threshold — two inputs with equal
timestamp lists get equal conversation-id sequences — and every field other
than `conversation_id` of every record is preserved; but the records
themselves are mutated in place, each one's `conversation_id` being
overwritten (see `assign_mutates_input_records`). -/
theorem assign_deterministic_fields_preserved (msgs msgs' : List Msg) (G : ℚ)
    (h : msgs.map Msg.timestamp_seconds = msgs'.map Msg.timestamp_seconds) :
    (assign_conversation_ids msgs G).map Msg.conversation_id
      = (assign_conversation_ids msgs' G).map Msg.conversation_id
    ∧ (assign_conversation_ids msgs G).map eraseConv = msgs.map eraseConv := by
  constructor
  · have hlen : msgs.length = msgs'.length := by
      have h2 := congrArg List.length h
      simpa using h2
    rw [assign_map_conversationId, assign_map_conversationId, h, hlen]
  · exact assign_map_eraseConv msgs G

/-- Witness for C8 (amended): two one-message lists with equal timestamps but
different texts receive the same conversation ids. -/
theorem assign_deterministic_fields_preserved_witness :
    (assign_conversation_ids [msgNoConv] 30).map Msg.conversation_id
      = (assign_conversation_ids [mkMsgTs 5] 30).map Msg.conversation_id
    ∧ (assign_conversation_ids [msgNoConv] 30).map eraseConv
        = [msgNoConv].map eraseConv :=
  assign_deterministic_fields_preserved [msgNoConv] [mkMsgTs 5] 30 (by decide)

/-! ## List batching

`range(0, len(xs), B)` slicing shared by `main` of `create_facts.py`
(`conversation_ids[i : i + BATCH_SIZE]`) and the upload loop of
`qdrant_uploader.py` (`messages_to_process[i : i + batch_size]`). -/

/-- The consecutive chunks of size `B` of a list, the last possibly shorter.
`B = 0` gives no chunks (Python's `range` would raise `ValueError`). -/
def chunks : ℕ → List α → List (List α)
  | _, [] => []
  | 0, _ :: _ => []
  | B + 1, x :: xs => (x :: xs).take (B + 1) :: chunks (B + 1) ((x :: xs).drop (B + 1))
termination_by _ l => l.length
decreasing_by
  simp only [List.length_drop, List.length_cons]
  omega

theorem chunks_succ_flatten (B : ℕ) (l : List α) :
    (chunks (B + 1) l).flatten = l := by
  suffices H : ∀ (n : ℕ) (l : List α), l.length ≤ n → (chunks (B + 1) l).flatten = l from
    H l.length l le_rfl
  intro n
  induction n with
  | zero =>
    intro l hl
    rw [List.length_eq_zero.mp (Nat.le_zero.mp hl)]
    simp [chunks]
  | succ n ih =>
    intro l hl
    cases l with
    | nil => simp [chunks]
    | cons x xs =>
      rw [chunks, List.flatten_cons, ih _ (by
        simp only [List.length_drop, List.length_cons]
        simp only [List.length_cons] at hl
        omega), List.take_append_drop]

theorem chunks_flatten (B : ℕ) (hB : 0 < B) (l : List α) :
    (chunks B l).flatten = l := by
  obtain ⟨C, rfl⟩ : ∃ C, B = C + 1 := ⟨B - 1, by omega⟩
  exact chunks_succ_flatten C l

theorem chunks_mem_subset (B : ℕ) (l : List α) (b : List α)
    (hb : b ∈ chunks B l) : ∀ x ∈ b, x ∈ l := by
  suffices H : ∀ (n : ℕ) (l : List α), l.length ≤ n →
      ∀ b ∈ chunks B l, ∀ x ∈ b, x ∈ l from H l.length l le_rfl b hb
  intro n
  induction n with
  | zero =>
    intro l hl
    rw [List.length_eq_zero.mp (Nat.le_zero.mp hl)]
    cases B <;> simp [chunks]
  | succ n ih =>
    intro l hl b hb x hx
    cases l with
    | nil =>
      cases B <;> simp [chunks] at hb
    | cons y ys =>
      cases B with
      | zero => simp [chunks] at hb
      | succ C =>
        rw [chunks] at hb
        rcases List.mem_cons.mp hb with h1 | h2
        · subst h1
          exact List.mem_of_mem_take hx
        · refine List.mem_of_mem_drop (ih _ (by
            simp only [List.length_drop, List.length_cons]
            simp only [List.length_cons] at hl
            omega) b h2 x hx)

/-! ## Fact extraction (`src/create_facts.py`) -/

/-- The `subject` literal of a `Fact`
(pydantic `Literal['me', 'other', 'relationship']`). -/
inductive Subject where
  | me | other | relationship
deriving DecidableEq, Repr

/-- A fact extracted from a conversation (pydantic model `Fact`).  The schema
constrains `confidence` to `[0, 1]`; validation itself stays abstract in the
environment's `parse`.  `fact_date` is kept as the string later stored by
`fact.fact_date.isoformat()`. -/
structure Fact where
  subject : Subject
  predicate : String
  object : String
  confidence : ℚ
  source_text : String
  fact_date : String
deriving DecidableEq, Repr

/-- pydantic model `ExtractedFacts`: the agent's declared output schema. -/
structure ExtractedFacts where
  facts : List Fact
deriving DecidableEq, Repr

/-- A row of the `messages` table as returned by
`get_knowledge_base_messages` (with `is_from_me` coerced back to a boolean). -/
structure KBRow where
  id : String
  conversation_id : String
  text : String
  is_from_me : Bool
  date_iso : String
  timestamp_seconds : ℚ
deriving DecidableEq, Repr

/-- A row of the `facts` table (without the autoincrement id), in the insert
column order `(conversation_id, subject, predicate, object, confidence,
source_text, date)`. -/
structure FactRow where
  conversation_id : String
  subject : Subject
  predicate : String
  object : String
  confidence : ℚ
  source_text : String
  date : String
deriving DecidableEq, Repr

/-- Outcome of one agent invocation for one conversation, as observed by
`extract_facts_from_conversation`:
* `failure` — an exception during `runner.run_async` / `await anext(events)`
  (transport error, caught by the outer `except Exception`);
* `noOutput` — the first event carried no textual payload
  (`extracted_facts_json` falsy);
* `output json` — `event.content.parts[-1].text`. -/
inductive AgentOutcome where
  | failure
  | noOutput
  | output (json : String)
deriving DecidableEq, Repr

/-- The external collaborators of `create_facts.py`: the SQLite knowledge
base (existence of the file, whether reading raises `sqlite3.Error`, and the
`messages` rows per conversation id) and the generative agent.  `parse`
models `ExtractedFacts.model_validate_json` (`none` = `ValidationError`). -/
structure FactEnv where
  dbExists : Bool
  dbError : Bool
  messagesOf : String → List KBRow
  agentOutcome : String → AgentOutcome
  parse : String → Option ExtractedFacts

/-- `get_knowledge_base_messages(db_path, conversation_id)`: prints and
returns `[]` when the database file does not exist (`Path.exists` guard), and
returns `[]` from the `except sqlite3.Error` handler when the read fails;
otherwise the conversation's rows (ordered by `timestamp_seconds` in SQL). -/
def get_knowledge_base_messages (env : FactEnv) (conversation_id : String) :
    List KBRow :=
  if !env.dbExists then []
  else if env.dbError then []
  else env.messagesOf conversation_id

/-- The tuple bound by `save_extracted_facts` in its
`INSERT INTO facts` statement, for one fact. -/
def factToRow (conversation_id : String) (f : Fact) : FactRow :=
  { conversation_id := conversation_id, subject := f.subject,
    predicate := f.predicate, object := f.object,
    confidence := f.confidence, source_text := f.source_text,
    date := f.fact_date }

/-- `save_extracted_facts`: one `INSERT` per fact, executed sequentially in
the order of `extracted_facts.facts`, then committed.  The facts table is
modelled as the ordered list of its rows. -/
def save_extracted_facts (conversation_id : String) (extracted : ExtractedFacts)
    (table : List FactRow) : List FactRow :=
  table ++ extracted.facts.map (factToRow conversation_id)

/-- `extract_facts_from_conversation(conversation_id, semaphore)` as a state
transformer on the facts table (the admission gate held around this body is
modelled separately by `SchedStep`): fetches the conversation's messages,
returns `None` as a silent no-op when there are none, and otherwise invokes
the agent and validates; every failure path (agent failure, missing output,
schema-validation failure) returns `None` and leaves the table unchanged,
and the success path saves the facts and returns them. -/
def extract_facts_from_conversation (env : FactEnv) (conversation_id : String)
    (table : List FactRow) : Option ExtractedFacts × List FactRow :=
  if (get_knowledge_base_messages env conversation_id).isEmpty then (none, table)
  else
    match env.agentOutcome conversation_id with
    | .failure => (none, table)
    | .noOutput => (none, table)
    | .output json =>
      match env.parse json with
      | none => (none, table)
      | some facts =>
        (some facts, save_extracted_facts conversation_id facts table)

/-- `MAX_CONCURRENT_API_CALLS_PER_BATCH` in `main` of `create_facts.py`. -/
def MAX_CONCURRENT_API_CALLS_PER_BATCH : ℕ := 5

/-- `BATCH_SIZE` in `main` of `create_facts.py`. -/
def BATCH_SIZE : ℕ := 50

/-- The rows one conversation's unit of work appends to the facts table:
empty on every failure path, the conversation's facts in agent order on
success. -/
def conversationRows (env : FactEnv) (cid : String) : List FactRow :=
  (extract_facts_from_conversation env cid []).2

/-- One batch of `main`: `asyncio.gather` over the batch's conversation ids.
The event loop is single-threaded and each conversation's inserts contain no
suspension point, so a batch's effect on the facts table is the composition
of the per-conversation transformers (launch order is one of the possible
completion orders; the contributed rows are order-independent per
conversation). -/
def runBatch (env : FactEnv) (table : List FactRow) (ids : List String) :
    List FactRow :=
  ids.foldl (fun t cid => (extract_facts_from_conversation env cid t).2) table

/-- The batch loop of `main`: conversation ids are grouped into `BATCH_SIZE`
slices, each gathered to completion before the fixed 5-second sleep (a pure
delay with no table effect). -/
def main_run (env : FactEnv) (table : List FactRow) (ids : List String) :
    List FactRow :=
  (chunks BATCH_SIZE ids).foldl (runBatch env) table

theorem extract_table_eq (env : FactEnv) (cid : String) (t : List FactRow) :
    (extract_facts_from_conversation env cid t).2 = t ++ conversationRows env cid := by
  unfold conversationRows extract_facts_from_conversation save_extracted_facts
  cases hm : (get_knowledge_base_messages env cid).isEmpty
  · cases ho : env.agentOutcome cid with
    | output json => cases hp : env.parse json <;> simp [hm, ho, hp]
    | _ => simp [hm, ho]
  · simp [hm]

theorem runBatch_eq (env : FactEnv) (ids : List String) (t : List FactRow) :
    runBatch env t ids = t ++ (ids.map (conversationRows env)).flatten := by
  induction ids generalizing t with
  | nil => simp [runBatch]
  | cons c rest ih =>
    show runBatch env ((extract_facts_from_conversation env c t).2) rest = _
    rw [ih, extract_table_eq]
    simp

theorem conversationRows_congr (env env' : FactEnv) (cid : String)
    (hdb : get_knowledge_base_messages env cid = get_knowledge_base_messages env' cid)
    (ha : env.agentOutcome cid = env'.agentOutcome cid)
    (hp : env.parse = env'.parse) :
    conversationRows env cid = conversationRows env' cid := by
  unfold conversationRows extract_facts_from_conversation
  rw [hdb, ha, hp]

/-- C5: in a fact-extraction run, every conversation's contribution to the
facts table is its own `conversationRows` regardless of any other
conversation's outcome: the table after a batch is the initial table plus
each conversation's rows in turn (also across batches, `main_run` composes to
the same fold), every failing unit of work returns `None` with the table
unchanged instead of propagating an exception, and a conversation's persisted
rows are invariant under arbitrary changes (including failures) to the other
conversations' data or outcomes. -/
theorem fact_extraction_failure_isolated (env env' : FactEnv)
    (table : List FactRow) (ids : List String) (c : String)
    (hdb : get_knowledge_base_messages env c = get_knowledge_base_messages env' c)
    (ha : env.agentOutcome c = env'.agentOutcome c)
    (hp : env.parse = env'.parse) :
    runBatch env table ids = table ++ (ids.map (conversationRows env)).flatten
    ∧ main_run env table ids = runBatch env table ids
    ∧ (∀ cid t, env.agentOutcome cid = .failure →
        extract_facts_from_conversation env cid t = (none, t))
    ∧ (∀ cid t json, env.agentOutcome cid = .output json → env.parse json = none →
        extract_facts_from_conversation env cid t = (none, t))
    ∧ conversationRows env c = conversationRows env' c := by
  refine ⟨runBatch_eq env ids table, ?_, ?_, ?_,
    conversationRows_congr env env' c hdb ha hp⟩
  · unfold main_run
    have hfold : ∀ (bs : List (List String)) (t : List FactRow),
        bs.foldl (runBatch env) t = runBatch env t bs.flatten := by
      intro bs
      induction bs with
      | nil => intro t; simp [runBatch]
      | cons b rest ih =>
        intro t
        rw [List.foldl_cons, ih, List.flatten_cons]
        unfold runBatch
        rw [List.foldl_append]
    rw [hfold, chunks_flatten BATCH_SIZE (by decide) ids]
  · intro cid t hfail
    unfold extract_facts_from_conversation
    rw [hfail]
    cases hm : (get_knowledge_base_messages env cid).isEmpty <;> simp
  · intro cid t json hout hval
    unfold extract_facts_from_conversation
    rw [hout]
    cases hm : (get_knowledge_base_messages env cid).isEmpty <;> simp [hm, hval]

/-- A concrete message row for witnesses. -/
def kbRowEx : KBRow :=
  { id := "id0", conversation_id := "conv_0", text := "hi",
    is_from_me := true, date_iso := "2020-01-01T00:00:00", timestamp_seconds := 0 }

/-- A concrete fact for witnesses. -/
def factEx : Fact :=
  { subject := .other, predicate := "likes", object := "hiking",
    confidence := 1, source_text := "hi", fact_date := "2020-01-01T00:00:00" }

/-- A concrete validated agent output for witnesses. -/
def factsEx : ExtractedFacts := { facts := [factEx] }

/-- A concrete environment: conversation `conv_0` has one message and a
validating agent output; every other conversation's agent invocation fails. -/
def envEx : FactEnv :=
  { dbExists := true, dbError := false,
    messagesOf := fun cid => if cid = "conv_0" then [kbRowEx] else [kbRowEx],
    agentOutcome := fun cid => if cid = "conv_0" then .output "json0" else .failure,
    parse := fun j => if j = "json0" then some factsEx else none }

/-- Like `envEx` but the other conversations fail differently (no output
instead of a transport failure): used to exhibit isolation of `conv_0`. -/
def envEx2 : FactEnv :=
  { envEx with
    agentOutcome := fun cid => if cid = "conv_0" then .output "json0" else .noOutput }

/-- Witness for C5: in a batch containing the failing conversation `conv_X`,
`conv_0`'s fact is still persisted, the failing conversation contributes
nothing, and `conv_0`'s rows are the same under `envEx` and `envEx2`. -/
theorem fact_extraction_failure_isolated_witness :
    runBatch envEx [] ["conv_0", "conv_X"]
      = [] ++ ((["conv_0", "conv_X"].map (conversationRows envEx)).flatten)
    ∧ extract_facts_from_conversation envEx "conv_X" [] = (none, [])
    ∧ conversationRows envEx "conv_0" = conversationRows envEx2 "conv_0" := by
  have h := fact_extraction_failure_isolated envEx envEx2 [] ["conv_0", "conv_X"]
    "conv_0" rfl (by decide) rfl
  exact ⟨h.1, h.2.2.1 "conv_X" [] (by decide), h.2.2.2.2⟩

/-- C7: when a conversation's messages are non-empty and the agent returned a
textual payload, a schema-validation failure leaves the facts table exactly
unchanged (no partial persistence), and a validating payload appends exactly
one row per fact, sequentially, in the order the agent returned the facts. -/
theorem validation_failure_drops_whole_conversation (env : FactEnv)
    (cid : String) (table : List FactRow) (json : String)
    (hm : get_knowledge_base_messages env cid ≠ [])
    (ho : env.agentOutcome cid = .output json) :
    (env.parse json = none →
      extract_facts_from_conversation env cid table = (none, table))
    ∧ (∀ facts, env.parse json = some facts →
        extract_facts_from_conversation env cid table
          = (some facts, table ++ facts.facts.map (factToRow cid))) := by
  have hne : (get_knowledge_base_messages env cid).isEmpty = false := by
    cases hc : get_knowledge_base_messages env cid with
    | nil => exact absurd hc hm
    | cons a l => rfl
  constructor
  · intro hval
    unfold extract_facts_from_conversation
    rw [ho]
    simp [hne, hval]
  · intro facts hval
    unfold extract_facts_from_conversation
    rw [ho]
    simp [hne, hval, save_extracted_facts]

/-- Witness for C7 at `envEx`: `conv_0`'s validating output appends its one
fact as one row; and under a parse function that rejects, the table stays
`[]`. -/
theorem validation_failure_drops_whole_conversation_witness :
    extract_facts_from_conversation envEx "conv_0" []
      = (some factsEx, [] ++ factsEx.facts.map (factToRow "conv_0"))
    ∧ extract_facts_from_conversation { envEx with parse := fun _ => none }
        "conv_0" [] = (none, []) := by
  constructor
  · exact (validation_failure_drops_whole_conversation envEx "conv_0" [] "json0"
      (by decide) (by decide)).2 factsEx (by decide)
  · exact (validation_failure_drops_whole_conversation
      { envEx with parse := fun _ => none } "conv_0" [] "json0"
      (by decide) (by decide)).1 rfl

/-- C10: when the knowledge-base file does not exist, or any SQLite error
occurs during the read, `get_knowledge_base_messages` returns the empty list
(raising nothing), and consequently `extract_facts_from_conversation` treats
the conversation as having no messages and terminates as a silent no-op:
result `None`, facts table untouched. -/
theorem missing_db_is_silent_noop (env : FactEnv) (cid : String)
    (table : List FactRow) (h : env.dbExists = false ∨ env.dbError = true) :
    get_knowledge_base_messages env cid = []
    ∧ extract_facts_from_conversation env cid table = (none, table) := by
  have hempty : get_knowledge_base_messages env cid = [] := by
    unfold get_knowledge_base_messages
    rcases h with h | h <;> rw [h] <;> simp
  refine ⟨hempty, ?_⟩
  unfold extract_facts_from_conversation
  rw [hempty]
  rfl

/-- An environment whose knowledge-base file is missing. -/
def envNoDb : FactEnv :=
  { dbExists := false, dbError := false, messagesOf := fun _ => [kbRowEx],
    agentOutcome := fun _ => .output "json0", parse := fun _ => some factsEx }

/-- Witness for C10: with the database file missing, the read returns `[]`
and the unit of work is a no-op even though the agent would have produced
validating facts. -/
theorem missing_db_is_silent_noop_witness :
    get_knowledge_base_messages envNoDb "conv_0" = []
    ∧ extract_facts_from_conversation envNoDb "conv_0" [] = (none, []) :=
  missing_db_is_silent_noop envNoDb "conv_0" [] (Or.inl rfl)

/-! ## The admission gate (`asyncio.Semaphore` in `create_facts.py`)

`main` creates `asyncio.Semaphore(MAX_CONCURRENT_API_CALLS_PER_BATCH)` and
each `extract_facts_from_conversation` wraps its whole body — including the
agent invocation — in `async with semaphore`.  The event loop is modelled as
an interleaving of per-task steps; `async with` guarantees the slot is
released on every exit path (success and failure alike). -/

/-- Phase of one conversation task with respect to the gate:
* `pending` — created, waiting at `async with semaphore`;
* `acquired` — slot held, agent call not yet issued;
* `invoking` — slot held, agent invocation in flight;
* `finishedBody` — agent call returned or raised (either exit path), the
  `finally` session-teardown running, slot still held;
* `released` — `async with` exited, slot returned. -/
inductive Phase where
  | pending | acquired | invoking | finishedBody | released
deriving DecidableEq, Repr

/-- Whether a phase holds a gate slot. -/
def holdsSlot : Phase → Bool
  | .acquired | .invoking | .finishedBody => true
  | _ => false

/-- Whether a phase has an agent invocation in flight. -/
def isInvoking : Phase → Bool
  | .invoking => true
  | _ => false

/-- Number of tasks currently holding a gate slot. -/
def gateHolders (s : List Phase) : ℕ := s.countP holdsSlot

/-- Number of agent invocations currently in flight. -/
def inFlight (s : List Phase) : ℕ := s.countP isInvoking

/-- One cooperative-scheduler step of the fact-extraction run with gate
capacity `K`.  A task may acquire only while fewer than `K` slots are held
(`asyncio.Semaphore` admission); the agent call happens entirely inside the
held slot; both the success and the failure exit of the call lead to the
`finally` block, after which the slot is released. -/
inductive SchedStep (K : ℕ) : List Phase → List Phase → Prop where
  | acquire (l r : List Phase) :
      gateHolders (l ++ Phase.pending :: r) < K →
      SchedStep K (l ++ Phase.pending :: r) (l ++ Phase.acquired :: r)
  | invoke (l r : List Phase) :
      SchedStep K (l ++ Phase.acquired :: r) (l ++ Phase.invoking :: r)
  | finishSuccess (l r : List Phase) :
      SchedStep K (l ++ Phase.invoking :: r) (l ++ Phase.finishedBody :: r)
  | finishFailure (l r : List Phase) :
      SchedStep K (l ++ Phase.invoking :: r) (l ++ Phase.finishedBody :: r)
  | release (l r : List Phase) :
      SchedStep K (l ++ Phase.finishedBody :: r) (l ++ Phase.released :: r)

/-- A state of an `n`-conversation run reachable from the initial state in
which every task is pending. -/
def SchedReachable (K n : ℕ) (s : List Phase) : Prop :=
  Relation.ReflTransGen (SchedStep K) (List.replicate n Phase.pending) s

theorem gateHolders_le_of_step {K : ℕ} {s s' : List Phase}
    (hstep : SchedStep K s s') (hs : gateHolders s ≤ K) : gateHolders s' ≤ K := by
  cases hstep with
  | acquire l r hlt =>
    simp [gateHolders, List.countP_append, List.countP_cons, holdsSlot] at hlt ⊢
    omega
  | invoke l r =>
    simp [gateHolders, List.countP_append, List.countP_cons, holdsSlot] at hs ⊢
    omega
  | finishSuccess l r =>
    simp [gateHolders, List.countP_append, List.countP_cons, holdsSlot] at hs ⊢
    omega
  | finishFailure l r =>
    simp [gateHolders, List.countP_append, List.countP_cons, holdsSlot] at hs ⊢
    omega
  | release l r =>
    simp [gateHolders, List.countP_append, List.countP_cons, holdsSlot] at hs ⊢
    omega

theorem gateHolders_le_of_reachable {K n : ℕ} {s : List Phase}
    (h : SchedReachable K n s) : gateHolders s ≤ K := by
  induction h with
  | refl =>
    simp [gateHolders, List.countP_eq_zero.mpr, holdsSlot]
  | tail _hsteps hstep ih => exact gateHolders_le_of_step hstep ih

theorem inFlight_le_gateHolders (s : List Phase) : inFlight s ≤ gateHolders s := by
  unfold inFlight gateHolders
  induction s with
  | nil => simp
  | cons p rest ih =>
    simp only [List.countP_cons]
    cases p <;> simp [isInvoking, holdsSlot] <;> omega

/-- C4: in every state reachable by the cooperative scheduler from the start
of a fact-extraction run over `n` conversations with gate capacity `K`, at
most `K` agent invocations are in flight (each invocation happens inside a
held gate slot, and at most `K` slots are ever held simultaneously). -/
theorem concurrent_agent_calls_bounded (K n : ℕ) (s : List Phase)
    (h : SchedReachable K n s) :
    inFlight s ≤ K ∧ gateHolders s ≤ K :=
  ⟨le_trans (inFlight_le_gateHolders s) (gateHolders_le_of_reachable h),
   gateHolders_le_of_reachable h⟩

/-- Witness for C4 at the source's constants: a three-step schedule of a
two-conversation run under capacity `MAX_CONCURRENT_API_CALLS_PER_BATCH = 5`
reaches a state with one call in flight, within the bound. -/
theorem concurrent_agent_calls_bounded_witness :
    inFlight [Phase.invoking, Phase.pending] ≤ MAX_CONCURRENT_API_CALLS_PER_BATCH
    ∧ gateHolders [Phase.invoking, Phase.pending]
        ≤ MAX_CONCURRENT_API_CALLS_PER_BATCH := by
  have hreach : SchedReachable MAX_CONCURRENT_API_CALLS_PER_BATCH 2
      [Phase.invoking, Phase.pending] := by
    have h1 : SchedStep MAX_CONCURRENT_API_CALLS_PER_BATCH
        [Phase.pending, Phase.pending] [Phase.acquired, Phase.pending] :=
      SchedStep.acquire [] [Phase.pending] (by decide)
    have h2 : SchedStep MAX_CONCURRENT_API_CALLS_PER_BATCH
        [Phase.acquired, Phase.pending] [Phase.invoking, Phase.pending] :=
      SchedStep.invoke [] [Phase.pending]
    exact Relation.ReflTransGen.tail (Relation.ReflTransGen.tail
      (Relation.ReflTransGen.refl) h1) h2
  exact concurrent_agent_calls_bounded MAX_CONCURRENT_API_CALLS_PER_BATCH 2
    [Phase.invoking, Phase.pending] hreach

/-! ## The embedding upload pipeline (`src/qdrant_uploader.py`)

`upload_knowledge_base_to_qdrant` is modelled from the point where the
`messages` rows have been fetched: the embedding models are parameters
(`encode` for `SentenceTransformer.encode(...).tolist()`, `sembed` for
`SparseTextEmbedding.embed`), with vector types `δ` (dense) and `σ` (sparse)
abstract, and the Qdrant client calls become an event trace.  An uncaught
exception (the `IndexError` from a too-short embedding list) aborts the run:
the trace stops and the error is reported in the second component. -/

/-- The payload dict built for each point. -/
structure QPayload where
  text : String
  conversation_id : String
  is_from_me : Bool
  date : String
  timestamp_seconds : ℚ
deriving DecidableEq, Repr

/-- `models.PointStruct(id=msg_id, payload=..., vector={'dense': ..,
'sparse': ..})`. -/
structure QPoint (δ σ : Type) where
  id : String
  payload : QPayload
  dense : δ
  sparse : σ
deriving DecidableEq, Repr

/-- The payload of one message row (`bool(is_from_me)` coercion included). -/
def payloadOf (m : KBRow) : QPayload :=
  { text := m.text, conversation_id := m.conversation_id,
    is_from_me := m.is_from_me, date := m.date_iso,
    timestamp_seconds := m.timestamp_seconds }

/-- The point built for message `m` from the batch's `j`-th dense and sparse
vectors. -/
def mkPoint (m : KBRow) (dv : δ) (sv : σ) : QPoint δ σ :=
  { id := m.id, payload := payloadOf m, dense := dv, sparse := sv }

/-- The point-assembly loop `for j, msg in enumerate(batch_raw_messages)`:
position `j` of the batch reads `batch_embeddings[j]` (first) and
`all_sparse_embeddings_in_batch[j]`; a missing index raises `IndexError`,
discarding the batch's partially built point list.  Consuming the three lists
in lockstep is the same as indexing each by the running `j`. -/
def buildPoints : List δ → List σ → List KBRow → Except String (List (QPoint δ σ))
  | _, _, [] => .ok []
  | [], _, _ :: _ => .error "IndexError: batch_embeddings"
  | _ :: _, [], _ :: _ => .error "IndexError: all_sparse_embeddings_in_batch"
  | dv :: ds, sv :: ss, m :: ms =>
    match buildPoints ds ss ms with
    | .error e => .error e
    | .ok pts => .ok (mkPoint m dv sv :: pts)

/-- The sparse sub-batching loop:
`for j in range(0, len(batch_texts), sparse_batch_size):
all_sparse_embeddings_in_batch.extend(list(sparse_model.embed(sub_batch)))`.
The sub-batch outputs are concatenated back in order. -/
def concatSparse (sembed : List String → List σ) (Bs : ℕ)
    (texts : List String) : List σ :=
  ((chunks Bs texts).map sembed).flatten

/-- One observable Qdrant client call. -/
inductive QEvent (δ σ : Type) where
  | deleteCollection
  | createCollection (hnswM : ℕ)
  | upsert (points : List (QPoint δ σ))
  | updateCollection (hnswM efConstruct : ℕ)
deriving DecidableEq, Repr

/-- The ingestion loop over the `batch_size` chunks of the fetched messages:
per batch, dense embeddings in one call, sparse embeddings in sub-batches,
point assembly, and `client.upsert` guarded by `if points_to_upsert:`.  A
point-assembly `IndexError` aborts the loop: no further event, error
reported. -/
def ingestBatches (encode : List String → List δ) (sembed : List String → List σ)
    (Bs : ℕ) : List (List KBRow) → List (QEvent δ σ) × Option String
  | [] => ([], none)
  | batch :: rest =>
    let texts := batch.map KBRow.text
    match buildPoints (encode texts) (concatSparse sembed Bs texts) batch with
    | .error e => ([], some e)
    | .ok pts =>
      let next := ingestBatches encode sembed Bs rest
      ((if pts.isEmpty then [] else [QEvent.upsert pts]) ++ next.1, next.2)

/-- `upload_knowledge_base_to_qdrant`, from the fetched `messages` rows on,
as the trace of Qdrant client calls plus the abort error, if any:
empty fetch returns before any client call; collection management
(`recreate_collection` flag and collection existence) issues delete/create,
the create always carrying the deferred-build dense parameters
(`HnswConfigDiff(m=0)`); then batch ingestion; then — only if the run was not
aborted — the single `update_collection` re-enabling `m=16,
ef_construct=100`. -/
def upload_knowledge_base_to_qdrant (collectionExists recreate : Bool)
    (encode : List String → List δ) (sembed : List String → List σ)
    (B Bs : ℕ) (msgs : List KBRow) : List (QEvent δ σ) × Option String :=
  if msgs.isEmpty then ([], none)
  else
    let mgmt : List (QEvent δ σ) :=
      if recreate then
        (if collectionExists then [QEvent.deleteCollection] else [])
          ++ [QEvent.createCollection 0]
      else if !collectionExists then [QEvent.createCollection 0]
      else []
    let ing := ingestBatches encode sembed Bs (chunks B msgs)
    match ing.2 with
    | some e => (mgmt ++ ing.1, some e)
    | none => (mgmt ++ ing.1 ++ [QEvent.updateCollection 16 100], none)

/-- Whether an event is a collection-create call. -/
def isCreateEvent : QEvent δ σ → Bool
  | .createCollection _ => true
  | _ => false

/-- Whether an event is the index-reconfiguration call. -/
def isUpdateEvent : QEvent δ σ → Bool
  | .updateCollection _ _ => true
  | _ => false

/-- Whether an event is an upsert. -/
def isUpsertEvent : QEvent δ σ → Bool
  | .upsert _ => true
  | _ => false

/-- All points carried by the upsert events of a trace, in order. -/
def upsertedPoints (evs : List (QEvent δ σ)) : List (QPoint δ σ) :=
  (evs.map (fun e => match e with | .upsert pts => pts | _ => [])).flatten

/-- The point comprehension of the
`src/backend/echo-chat/data_processing/create_qdrant_db.py` variant:
`enumerate(zip(batch_messages, all_sparse_embeddings, strict=True))` with
`batch_dense_embeddings[idx]` inside.  `strict=True` raises when either of
the two zipped iterables exhausts before the other; a too-short dense list
raises `IndexError`; a longer dense list is silently ignored. -/
def buildPointsStrict :
    List δ → List σ → List KBRow → Except String (List (QPoint δ σ))
  | _, [], [] => .ok []
  | _, _ :: _, [] => .error "zip strict: sparse embeddings longer"
  | _, [], _ :: _ => .error "zip strict: messages longer"
  | [], _ :: _, _ :: _ => .error "IndexError: batch_dense_embeddings"
  | dv :: ds, sv :: ss, m :: ms =>
    match buildPointsStrict ds ss ms with
    | .error e => .error e
    | .ok pts => .ok (mkPoint m dv sv :: pts)

theorem buildPoints_map (df : KBRow → δ) (sf : KBRow → σ) (ms : List KBRow) :
    buildPoints (ms.map df) (ms.map sf) ms
      = .ok (ms.map (fun m => mkPoint m (df m) (sf m))) := by
  induction ms with
  | nil => rfl
  | cons m rest ih => simp [buildPoints, ih]

theorem concatSparse_map (sembed : List String → List σ) (f : String → σ)
    (hs : ∀ ts, sembed ts = ts.map f) (Bs : ℕ) (hBs : 0 < Bs)
    (texts : List String) : concatSparse sembed Bs texts = texts.map f := by
  unfold concatSparse
  have h1 : (chunks Bs texts).map sembed = (chunks Bs texts).map (List.map f) :=
    List.map_congr_left (fun c _ => hs c)
  rw [h1, ← List.map_flatten, chunks_flatten Bs hBs]

theorem buildPoints_short (dense : List δ) (sparse : List σ) (ms : List KBRow)
    (h : dense.length < ms.length ∨ sparse.length < ms.length) :
    ∃ e, buildPoints dense sparse ms = Except.error e := by
  induction ms generalizing dense sparse with
  | nil => simp at h
  | cons m rest ih =>
    cases dense with
    | nil => exact ⟨_, rfl⟩
    | cons dv ds =>
      cases sparse with
      | nil => exact ⟨_, rfl⟩
      | cons sv ss =>
        have h' : ds.length < rest.length ∨ ss.length < rest.length := by
          simp only [List.length_cons] at h
          omega
        obtain ⟨e, he⟩ := ih ds ss h'
        exact ⟨e, by simp [buildPoints, he]⟩

theorem buildPointsStrict_mismatch (dense : List δ) (sparse : List σ)
    (ms : List KBRow)
    (h : sparse.length ≠ ms.length ∨ dense.length < ms.length) :
    ∃ e, buildPointsStrict dense sparse ms = Except.error e := by
  induction ms generalizing dense sparse with
  | nil =>
    cases sparse with
    | nil => simp at h
    | cons sv ss => exact ⟨_, by cases dense <;> rfl⟩
  | cons m rest ih =>
    cases sparse with
    | nil => exact ⟨_, by cases dense <;> rfl⟩
    | cons sv ss =>
      cases dense with
      | nil => exact ⟨_, rfl⟩
      | cons dv ds =>
        have h' : ss.length ≠ rest.length ∨ ds.length < rest.length := by
          simp only [List.length_cons] at h
          omega
        obtain ⟨e, he⟩ := ih ds ss h'
        exact ⟨e, by simp [buildPointsStrict, he]⟩

theorem ingest_events_upserts (encode : List String → List δ)
    (sembed : List String → List σ) (Bs : ℕ) (batches : List (List KBRow)) :
    ∀ e ∈ (ingestBatches encode sembed Bs batches).1,
      ∃ pts, e = QEvent.upsert pts := by
  induction batches with
  | nil => simp [ingestBatches]
  | cons batch rest ih =>
    intro e he
    unfold ingestBatches at he
    dsimp only at he
    rcases hb : buildPoints (encode (batch.map KBRow.text))
        (concatSparse sembed Bs (batch.map KBRow.text)) batch with e' | pts
    · rw [hb] at he
      simp at he
    · rw [hb] at he
      simp only [List.mem_append] at he
      rcases he with he | he
      · rcases hpts : pts.isEmpty with _ | _
        · rw [hpts] at he
          simp at he
          exact ⟨pts, he⟩
        · rw [hpts] at he
          simp at he
      · exact ih e he

theorem ingest_ok (encode : List String → List δ) (sembed : List String → List σ)
    (g : String → δ) (f : String → σ)
    (hd : ∀ ts, encode ts = ts.map g) (hs : ∀ ts, sembed ts = ts.map f)
    (Bs : ℕ) (hBs : 0 < Bs) (batches : List (List KBRow)) :
    (ingestBatches encode sembed Bs batches).2 = none := by
  induction batches with
  | nil => rfl
  | cons batch rest ih =>
    unfold ingestBatches
    dsimp only
    have hb : buildPoints (encode (batch.map KBRow.text))
        (concatSparse sembed Bs (batch.map KBRow.text)) batch
        = .ok (batch.map (fun m => mkPoint m (g m.text) (f m.text))) := by
      rw [hd, concatSparse_map sembed f hs Bs hBs, List.map_map, List.map_map]
      exact buildPoints_map _ _ batch
    rw [hb]
    exact ih

/-- C2 (amended): for every batch, when each embedding call returns exactly
one vector per input text, the dense list and the concatenated sparse list
have exactly the length and order of the batch's texts and the built points
pair message `i` with dense vector `i` and sparse vector `i`; whenever an
embedding list is SHORTER than the batch the point assembly raises
(`IndexError`) and the run aborts with that error before the batch's upsert,
so no point of the batch is upserted; and in the
`create_qdrant_db.py` variant any sparse-list length mismatch (and any
too-short dense list) aborts via `zip(..., strict=True)`.  (A LONGER
embedding list does not abort in `qdrant_uploader.py`: see the
counterexample.) -/
theorem embedding_alignment_and_abort (encode : List String → List δ)
    (sembed : List String → List σ) (g : String → δ) (f : String → σ)
    (Bs : ℕ) (hBs : 0 < Bs)
    (hd : ∀ ts, encode ts = ts.map g) (hs : ∀ ts, sembed ts = ts.map f)
    (batch : List KBRow) :
    (encode (batch.map KBRow.text)).length = batch.length
    ∧ (concatSparse sembed Bs (batch.map KBRow.text)).length = batch.length
    ∧ buildPoints (encode (batch.map KBRow.text))
        (concatSparse sembed Bs (batch.map KBRow.text)) batch
        = Except.ok (batch.map (fun m => mkPoint m (g m.text) (f m.text)))
    ∧ (∀ (dense : List δ) (sparse : List σ),
        dense.length < batch.length ∨ sparse.length < batch.length →
          ∃ e, buildPoints dense sparse batch = Except.error e)
    ∧ (∀ (encodeA : List String → List δ) (sembedA : List String → List σ)
        (rest : List (List KBRow)) (e : String),
        buildPoints (encodeA (batch.map KBRow.text))
          (concatSparse sembedA Bs (batch.map KBRow.text)) batch
            = Except.error e →
        ingestBatches encodeA sembedA Bs (batch :: rest) = ([], some e))
    ∧ (∀ (dense : List δ) (sparse : List σ),
        sparse.length ≠ batch.length ∨ dense.length < batch.length →
          ∃ e, buildPointsStrict dense sparse batch = Except.error e) := by
  refine ⟨?_, ?_, ?_, fun dense sparse => buildPoints_short dense sparse batch,
    ?_, fun dense sparse => buildPointsStrict_mismatch dense sparse batch⟩
  · rw [hd]
    simp
  · rw [concatSparse_map sembed f hs Bs hBs]
    simp
  · rw [hd, concatSparse_map sembed f hs Bs hBs, List.map_map, List.map_map]
    exact buildPoints_map _ _ batch
  · intro encodeA sembedA rest e he
    unfold ingestBatches
    dsimp only
    rw [he]

/-- Constant dense embedding model for concrete runs: one vector per text. -/
def encodeNat : List String → List ℕ := fun ts => ts.map (fun _ => 0)

/-- Constant sparse embedding model for concrete runs: one vector per text. -/
def sembedNat : List String → List ℕ := fun ts => ts.map (fun _ => 0)

/-- A sparse model that misbehaves on the sub-batch `["a"]`, returning two
vectors for one text (its other outputs are one per text). -/
def sembedBad : List String → List ℕ := fun ts =>
  if ts = ["a"] then [1, 99] else if ts = ["b"] then [2] else []

/-- First message of the misalignment example. -/
def rowA : KBRow :=
  { id := "a0", conversation_id := "c", text := "a", is_from_me := false,
    date_iso := "", timestamp_seconds := 0 }

/-- Second message of the misalignment example. -/
def rowB : KBRow :=
  { id := "b0", conversation_id := "c", text := "b", is_from_me := true,
    date_iso := "", timestamp_seconds := 0 }

/-- The two-message batch of the misalignment example. -/
def msgsAB : List KBRow := [rowA, rowB]

/-- C2 counterexample: with sub-batch size 1 and a sparse model that returns
one extra vector for the first sub-batch, the concatenated sparse list has
length 3 for a 2-text batch — the lengths disagree — yet the run does not
abort (`IndexError` only fires on a too-short list) and the misaligned batch
IS upserted: message `b` is paired with the stray vector `99` instead of its
own vector `2`. -/
theorem misaligned_batch_upserted_without_abort :
    (concatSparse sembedBad 1 (msgsAB.map KBRow.text)).length = 3
    ∧ msgsAB.length = 2
    ∧ ingestBatches encodeNat sembedBad 1 [msgsAB]
        = ([QEvent.upsert [mkPoint rowA 0 1, mkPoint rowB 0 99]], none)
    ∧ sembedBad ["b"] = [2] := by
  have hch : chunks 1 ["a", "b"] = [["a"], ["b"]] := by simp [chunks]
  have htx : msgsAB.map KBRow.text = ["a", "b"] := rfl
  have hcs : concatSparse sembedBad 1 ["a", "b"] = [1, 99, 2] := by
    unfold concatSparse
    rw [hch]
    rfl
  have hbp : buildPoints (encodeNat ["a", "b"]) ([1, 99, 2] : List ℕ) msgsAB
      = Except.ok [mkPoint rowA 0 1, mkPoint rowB 0 99] := rfl
  refine ⟨by rw [htx, hcs]; rfl, rfl, ?_, rfl⟩
  unfold ingestBatches
  dsimp only
  rw [htx, hcs, hbp]
  rfl

/-- Witness for C2 (amended) at a concrete pointwise model pair: the batch
`[rowA, rowB]` builds aligned points and the strict variant rejects a
mismatched sparse list. -/
theorem embedding_alignment_and_abort_witness :
    buildPoints (encodeNat (msgsAB.map KBRow.text))
        (concatSparse sembedNat 1 (msgsAB.map KBRow.text)) msgsAB
      = Except.ok [mkPoint rowA 0 0, mkPoint rowB 0 0]
    ∧ (concatSparse sembedNat 1 (msgsAB.map KBRow.text)).length = msgsAB.length
    ∧ ∃ e, buildPointsStrict ([0, 0] : List ℕ) ([1, 99, 2] : List ℕ) msgsAB
        = Except.error e := by
  have h := embedding_alignment_and_abort encodeNat sembedNat
    (fun _ => (0 : ℕ)) (fun _ => (0 : ℕ)) 1 (by decide)
    (fun ts => rfl) (fun ts => rfl) msgsAB
  exact ⟨h.2.2.1, h.2.1, h.2.2.2.2.2 [0, 0] [1, 99, 2] (Or.inl (by decide))⟩

/-- C3: starting from an absent collection, a complete run (non-empty message
set, embedding models returning one vector per input) issues exactly one
collection-create call carrying the deferred-build parameters (HNSW `m = 0`)
as its first event, exactly one reconfiguration call re-enabling the standard
parameters (`m = 16`, `ef_construct = 100`) as its last event, and every
event in between is an upsert — so no upsert precedes the create or follows
the reconfigure. -/
theorem deferred_index_toggle_ordering (recreate : Bool)
    (encode : List String → List δ) (sembed : List String → List σ)
    (g : String → δ) (f : String → σ) (B Bs : ℕ) (msgs : List KBRow)
    (hd : ∀ ts, encode ts = ts.map g) (hs : ∀ ts, sembed ts = ts.map f)
    (hB : 0 < B) (hBs : 0 < Bs) (hne : msgs ≠ []) :
    ∃ us, upload_knowledge_base_to_qdrant false recreate encode sembed B Bs msgs
        = (QEvent.createCollection 0 :: us ++ [QEvent.updateCollection 16 100],
           none)
      ∧ (∀ e ∈ us, isUpsertEvent e = true)
      ∧ (QEvent.createCollection 0 :: us
          ++ [QEvent.updateCollection 16 100]).countP (isCreateEvent ·) = 1
      ∧ (QEvent.createCollection 0 :: us
          ++ [QEvent.updateCollection 16 100]).countP (isUpdateEvent ·) = 1 := by
  have hne' : msgs.isEmpty = false := by
    cases msgs with
    | nil => exact absurd rfl hne
    | cons a l => rfl
  have h2 : (ingestBatches encode sembed Bs (chunks B msgs)).2 = none :=
    ingest_ok encode sembed g f hd hs Bs hBs (chunks B msgs)
  have hup : ∀ e ∈ (ingestBatches encode sembed Bs (chunks B msgs)).1,
      isUpsertEvent e = true := by
    intro e he
    obtain ⟨pts, rfl⟩ := ingest_events_upserts encode sembed Bs (chunks B msgs) e he
    rfl
  refine ⟨(ingestBatches encode sembed Bs (chunks B msgs)).1, ?_, hup, ?_, ?_⟩
  · unfold upload_knowledge_base_to_qdrant
    rw [hne']
    dsimp only
    rw [h2]
    cases recreate <;> simp
  · have hz : (ingestBatches encode sembed Bs (chunks B msgs)).1.countP
        (isCreateEvent ·) = 0 :=
      List.countP_eq_zero.mpr (by
        intro e he
        obtain ⟨pts, rfl⟩ :=
          ingest_events_upserts encode sembed Bs (chunks B msgs) e he
        simp [isCreateEvent])
    show List.countP (isCreateEvent ·)
      ([QEvent.createCollection 0]
        ++ ((ingestBatches encode sembed Bs (chunks B msgs)).1
          ++ [QEvent.updateCollection 16 100])) = 1
    rw [List.countP_append, List.countP_append, hz]
    simp [isCreateEvent]
  · have hz : (ingestBatches encode sembed Bs (chunks B msgs)).1.countP
        (isUpdateEvent ·) = 0 :=
      List.countP_eq_zero.mpr (by
        intro e he
        obtain ⟨pts, rfl⟩ :=
          ingest_events_upserts encode sembed Bs (chunks B msgs) e he
        simp [isUpdateEvent])
    show List.countP (isUpdateEvent ·)
      ([QEvent.createCollection 0]
        ++ ((ingestBatches encode sembed Bs (chunks B msgs)).1
          ++ [QEvent.updateCollection 16 100])) = 1
    rw [List.countP_append, List.countP_append, hz]
    simp [isUpdateEvent]

/-- Witness for C3: a concrete single-message run from an absent collection
ends with no error, first event the deferred-build create, last event the
reconfiguration. -/
theorem deferred_index_toggle_ordering_witness :
    (upload_knowledge_base_to_qdrant false true encodeNat sembedNat 1 1
        [kbRowEx]).2 = none
    ∧ (upload_knowledge_base_to_qdrant false true encodeNat sembedNat 1 1
        [kbRowEx]).1.head? = some (QEvent.createCollection 0)
    ∧ (upload_knowledge_base_to_qdrant false true encodeNat sembedNat 1 1
        [kbRowEx]).1.getLast? = some (QEvent.updateCollection 16 100) := by
  obtain ⟨us, heq, hup, hc, hu⟩ := deferred_index_toggle_ordering true
    encodeNat sembedNat (fun _ => (0 : ℕ)) (fun _ => (0 : ℕ)) 1 1 [kbRowEx]
    (fun ts => rfl) (fun ts => rfl) (by decide) (by decide) (by decide)
  refine ⟨?_, ?_, ?_⟩
  · rw [heq]
  · rw [heq]
    rfl
  · rw [heq]
    show (QEvent.createCollection 0 :: (us ++ [QEvent.updateCollection 16 100])).getLast?
      = some (QEvent.updateCollection 16 100)
    rw [← List.cons_append]
    exact List.getLast?_concat _

/-! ## Qdrant collection state (upsert semantics, for idempotency) -/

/-- The stored content of one point: vectors and payload. -/
structure PointData (δ σ : Type) where
  dense : δ
  sparse : σ
  payload : QPayload
deriving DecidableEq, Repr

/-- The stored data of a point struct. -/
def QPoint.data (p : QPoint δ σ) : PointData δ σ :=
  { dense := p.dense, sparse := p.sparse, payload := p.payload }

/-- A Qdrant collection: the point ids present (in first-insertion order, so
the point count is `ids.length`) and each id's stored content. -/
@[ext]
structure Collection (δ σ : Type) where
  ids : List String
  pointOf : String → Option (PointData δ σ)

/-- A freshly created, empty collection. -/
def emptyCollection : Collection δ σ := { ids := [], pointOf := fun _ => none }

/-- Qdrant upsert semantics keyed by point id: an upsert of an id already
present overwrites that point's vectors and payload without growing the
collection; a new id is appended. -/
def upsertPoint (c : Collection δ σ) (p : QPoint δ σ) : Collection δ σ :=
  { ids := if p.id ∈ c.ids then c.ids else c.ids ++ [p.id],
    pointOf := fun k => if k = p.id then some p.data else c.pointOf k }

/-- `client.upsert(collection_name=..., points=..., wait=True)`: upsert each
point of the list in order. -/
def upsertAll (c : Collection δ σ) (ps : List (QPoint δ σ)) : Collection δ σ :=
  ps.foldl upsertPoint c

/-- Effect of one pipeline event on the collection state: delete removes the
collection (re-created empty by the next create), create initialises an empty
collection, upsert applies `upsertPoint` per point, and the index
reconfiguration does not change stored points. -/
def applyEvent (c : Collection δ σ) : QEvent δ σ → Collection δ σ
  | .deleteCollection => emptyCollection
  | .createCollection _ => emptyCollection
  | .upsert pts => upsertAll c pts
  | .updateCollection _ _ => c

/-- The collection state after a trace of pipeline events. -/
def applyEvents (c : Collection δ σ) (evs : List (QEvent δ σ)) : Collection δ σ :=
  evs.foldl applyEvent c

/-- The collection state after one complete
`upload_knowledge_base_to_qdrant` run started from state `c₀`. -/
def runState (c₀ : Collection δ σ) (collectionExists recreate : Bool)
    (encode : List String → List δ) (sembed : List String → List σ)
    (B Bs : ℕ) (msgs : List KBRow) : Collection δ σ :=
  applyEvents c₀
    (upload_knowledge_base_to_qdrant collectionExists recreate
      encode sembed B Bs msgs).1

theorem upsertAll_append (c : Collection δ σ) (ps qs : List (QPoint δ σ)) :
    upsertAll c (ps ++ qs) = upsertAll (upsertAll c ps) qs :=
  List.foldl_append _ _ _ _

theorem applyEvents_append (c : Collection δ σ) (l1 l2 : List (QEvent δ σ)) :
    applyEvents c (l1 ++ l2) = applyEvents (applyEvents c l1) l2 :=
  List.foldl_append _ _ _ _

theorem upsertAll_pointOf (ps : List (QPoint δ σ)) :
    ∀ (c : Collection δ σ) (k : String),
      (upsertAll c ps).pointOf k =
        match ps.reverse.find? (fun p => decide (p.id = k)) with
        | some p => some p.data
        | none => c.pointOf k := by
  induction ps with
  | nil => intro c k; rfl
  | cons p rest ih =>
    intro c k
    show (upsertAll (upsertPoint c p) rest).pointOf k = _
    rw [ih, List.reverse_cons, List.find?_append]
    cases hf : rest.reverse.find? (fun q => decide (q.id = k)) with
    | some q => rfl
    | none =>
      show (upsertPoint c p).pointOf k = _
      unfold upsertPoint
      by_cases hk : p.id = k
      · simp [List.find?, hk]
      · have hk' : ¬(k = p.id) := fun h => hk h.symm
        simp [List.find?, hk, hk']

theorem upsertPoint_ids_mono (c : Collection δ σ) (p : QPoint δ σ)
    (x : String) (hx : x ∈ c.ids) : x ∈ (upsertPoint c p).ids := by
  unfold upsertPoint
  by_cases hp : p.id ∈ c.ids <;> simp [hp, hx]

theorem upsertPoint_ids_self (c : Collection δ σ) (p : QPoint δ σ) :
    p.id ∈ (upsertPoint c p).ids := by
  unfold upsertPoint
  by_cases hp : p.id ∈ c.ids <;> simp [hp]

theorem upsertAll_ids_mono (ps : List (QPoint δ σ)) :
    ∀ (c : Collection δ σ) (x : String), x ∈ c.ids → x ∈ (upsertAll c ps).ids := by
  induction ps with
  | nil => intro c x hx; exact hx
  | cons p rest ih =>
    intro c x hx
    exact ih (upsertPoint c p) x (upsertPoint_ids_mono c p x hx)

theorem upsertAll_ids_of_mem (ps : List (QPoint δ σ)) :
    ∀ (c : Collection δ σ) (q : QPoint δ σ), q ∈ ps →
      q.id ∈ (upsertAll c ps).ids := by
  induction ps with
  | nil => intro c q hq; simp at hq
  | cons p rest ih =>
    intro c q hq
    rcases List.mem_cons.mp hq with h1 | h1
    · subst h1
      exact upsertAll_ids_mono rest (upsertPoint c q) q.id
        (upsertPoint_ids_self c q)
    · exact ih (upsertPoint c p) q h1

theorem upsertAll_ids_stable (ps : List (QPoint δ σ)) :
    ∀ (c : Collection δ σ), (∀ q ∈ ps, q.id ∈ c.ids) →
      (upsertAll c ps).ids = c.ids := by
  induction ps with
  | nil => intro c _; rfl
  | cons p rest ih =>
    intro c h
    have hids : (upsertPoint c p).ids = c.ids := by
      unfold upsertPoint
      rw [if_pos (h p (List.mem_cons_self p rest))]
    have hrest : ∀ q ∈ rest, q.id ∈ (upsertPoint c p).ids := by
      intro q hq
      rw [hids]
      exact h q (List.mem_cons_of_mem p hq)
    show (upsertAll (upsertPoint c p) rest).ids = c.ids
    rw [ih (upsertPoint c p) hrest, hids]

theorem upsertAll_idem (c : Collection δ σ) (ps : List (QPoint δ σ)) :
    upsertAll (upsertAll c ps) ps = upsertAll c ps := by
  apply Collection.ext
  · exact upsertAll_ids_stable ps _ (fun q hq => upsertAll_ids_of_mem ps c q hq)
  · funext k
    rw [upsertAll_pointOf, upsertAll_pointOf]
    cases hf : ps.reverse.find? (fun p => decide (p.id = k)) with
    | some q => rfl
    | none => rfl

theorem applyEvents_upserts_update (evs : List (QEvent δ σ))
    (h : ∀ e ∈ evs, isUpsertEvent e = true ∨ e = QEvent.updateCollection 16 100) :
    ∀ c, applyEvents c evs = upsertAll c (upsertedPoints evs) := by
  induction evs with
  | nil => intro c; rfl
  | cons e rest ih =>
    intro c
    have hrest : ∀ e ∈ rest, isUpsertEvent e = true
        ∨ e = QEvent.updateCollection 16 100 :=
      fun x hx => h x (List.mem_cons_of_mem e hx)
    rcases h e (List.mem_cons_self e rest) with h1 | h1
    · cases e with
      | upsert pts =>
        show applyEvents (upsertAll c pts) rest = _
        rw [ih hrest]
        have hu : upsertedPoints (QEvent.upsert pts :: rest)
            = pts ++ upsertedPoints rest := by
          simp [upsertedPoints]
        rw [hu, upsertAll_append]
      | deleteCollection => simp [isUpsertEvent] at h1
      | createCollection m => simp [isUpsertEvent] at h1
      | updateCollection m e => simp [isUpsertEvent] at h1
    · subst h1
      show applyEvents c rest = _
      rw [ih hrest]
      have hu : upsertedPoints (QEvent.updateCollection 16 100 :: rest)
          = upsertedPoints rest := by
        simp [upsertedPoints]
      rw [hu]

theorem applyEvents_create_prefix (pre evs : List (QEvent δ σ)) (m : ℕ)
    (c : Collection δ σ) :
    applyEvents c (pre ++ QEvent.createCollection m :: evs)
      = applyEvents emptyCollection evs := by
  have h : pre ++ QEvent.createCollection m :: evs
      = (pre ++ [QEvent.createCollection m]) ++ evs := by simp
  rw [h, applyEvents_append, applyEvents_append]
  rfl

theorem buildPoints_ok_mem (ms : List KBRow) :
    ∀ (dense : List δ) (sparse : List σ) (pts : List (QPoint δ σ)),
      buildPoints dense sparse ms = .ok pts →
      ∀ p ∈ pts, ∃ m ∈ ms, p.id = m.id := by
  induction ms with
  | nil =>
    intro dense sparse pts h p hp
    cases dense <;> cases sparse <;> cases h <;> simp at hp
  | cons m rest ih =>
    intro dense sparse pts h p hp
    cases dense with
    | nil => cases h
    | cons dv ds =>
      cases sparse with
      | nil => cases h
      | cons sv ss =>
        unfold buildPoints at h
        rcases hb : buildPoints ds ss rest with e | pts'
        · rw [hb] at h
          cases h
        · rw [hb] at h
          cases h
          rcases List.mem_cons.mp hp with h1 | h1
          · subst h1
            exact ⟨m, List.mem_cons_self m rest, rfl⟩
          · obtain ⟨m', hm', hid⟩ := ih ds ss pts' hb p h1
            exact ⟨m', List.mem_cons_of_mem m hm', hid⟩

theorem upsertedPoints_append (a b : List (QEvent δ σ)) :
    upsertedPoints (a ++ b) = upsertedPoints a ++ upsertedPoints b := by
  simp [upsertedPoints]

theorem ingest_points_mem (encode : List String → List δ)
    (sembed : List String → List σ) (Bs : ℕ) (batches : List (List KBRow)) :
    ∀ p ∈ upsertedPoints (ingestBatches encode sembed Bs batches).1,
      ∃ batch ∈ batches, ∃ m ∈ batch, p.id = m.id := by
  induction batches with
  | nil => simp [ingestBatches, upsertedPoints]
  | cons batch rest ih =>
    intro p hp
    unfold ingestBatches at hp
    dsimp only at hp
    rcases hb : buildPoints (encode (batch.map KBRow.text))
        (concatSparse sembed Bs (batch.map KBRow.text)) batch with e | pts
    · rw [hb] at hp
      simp [upsertedPoints] at hp
    · rw [hb] at hp
      rw [upsertedPoints_append] at hp
      rcases List.mem_append.mp hp with h1 | h1
      · rcases hpts : pts.isEmpty with _ | _
        · rw [hpts] at h1
          simp [upsertedPoints] at h1
          obtain ⟨m, hm, hid⟩ := buildPoints_ok_mem batch _ _ pts hb p h1
          exact ⟨batch, List.mem_cons_self batch rest, m, hm, hid⟩
        · rw [hpts] at h1
          simp [upsertedPoints] at h1
      · obtain ⟨b, hb', m, hm, hid⟩ := ih p h1
        exact ⟨b, List.mem_cons_of_mem batch hb', m, hm, hid⟩

theorem applyEvents_ending_create (pre : List (QEvent δ σ)) (m : ℕ)
    (x : Collection δ σ) :
    applyEvents x (pre ++ [QEvent.createCollection m]) = emptyCollection := by
  rw [applyEvents_append]
  rfl

theorem second_run_core (mgmt evs : List (QEvent δ σ)) (c₀ : Collection δ σ)
    (hsplit : (∃ pre m, mgmt = pre ++ [QEvent.createCollection m]) ∨ mgmt = [])
    (hevs : ∀ e ∈ evs,
      isUpsertEvent e = true ∨ e = QEvent.updateCollection 16 100) :
    applyEvents (applyEvents c₀ (mgmt ++ evs)) (mgmt ++ evs)
      = applyEvents c₀ (mgmt ++ evs) := by
  rcases hsplit with ⟨pre, m, rfl⟩ | rfl
  · have hx : ∀ x : Collection δ σ,
        applyEvents x ((pre ++ [QEvent.createCollection m]) ++ evs)
          = applyEvents emptyCollection evs := by
      intro x
      rw [applyEvents_append, applyEvents_ending_create]
    simp only [hx]
  · simp only [List.nil_append]
    simp only [applyEvents_upserts_update evs hevs]
    exact upsertAll_idem c₀ (upsertedPoints evs)

theorem runState_rerun (collectionExists recreate : Bool)
    (encode : List String → List δ) (sembed : List String → List σ)
    (B Bs : ℕ) (msgs : List KBRow) (c₀ : Collection δ σ) :
    runState (runState c₀ collectionExists recreate encode sembed B Bs msgs)
        collectionExists recreate encode sembed B Bs msgs
      = runState c₀ collectionExists recreate encode sembed B Bs msgs := by
  unfold runState upload_knowledge_base_to_qdrant
  by_cases hm : msgs.isEmpty = true
  · simp [hm, applyEvents]
  · rw [if_neg hm]
    dsimp only
    have hup := ingest_events_upserts encode sembed Bs (chunks B msgs)
    have hsplit : (∃ pre m,
        (if recreate = true then
          (if collectionExists = true then [QEvent.deleteCollection] else [])
            ++ [QEvent.createCollection 0]
        else if !collectionExists then [QEvent.createCollection 0]
        else ([] : List (QEvent δ σ)))
          = pre ++ [QEvent.createCollection m])
        ∨ (if recreate = true then
            (if collectionExists = true then [QEvent.deleteCollection] else [])
              ++ [QEvent.createCollection 0]
          else if !collectionExists then [QEvent.createCollection 0]
          else ([] : List (QEvent δ σ))) = [] := by
      cases recreate with
      | true =>
        exact Or.inl ⟨(if collectionExists = true then [QEvent.deleteCollection]
          else []), 0, by simp⟩
      | false =>
        cases collectionExists with
        | false => exact Or.inl ⟨[], 0, by simp⟩
        | true => exact Or.inr (by simp)
    rcases h2 : (ingestBatches encode sembed Bs (chunks B msgs)).2 with _ | e <;>
      dsimp only
    · simp only [List.append_assoc]
      refine second_run_core _ _ c₀ hsplit ?_
      intro e' he'
      rcases List.mem_append.mp he' with h1 | h1
      · obtain ⟨pts, rfl⟩ := hup e' h1
        exact Or.inl rfl
      · simp at h1
        exact Or.inr h1
    · refine second_run_core _ _ c₀ hsplit ?_
      intro e' he'
      obtain ⟨pts, rfl⟩ := hup e' he'
      exact Or.inl rfl

/-- C6: embedding-point identity equals the source message id (every upserted
point's id is the id of a fetched message); an upsert of an already-present
id overwrites that point's stored vectors and payload without growing the
collection; upserting the same point list twice equals upserting it once; and
a second complete pipeline run on an unchanged message set leaves the
collection state — the point count and every point's vector/payload
content — identical to the state after the first run. -/
theorem upsert_idempotent_and_point_identity (collectionExists recreate : Bool)
    (encode : List String → List δ) (sembed : List String → List σ)
    (B Bs : ℕ) (msgs : List KBRow) (c₀ : Collection δ σ) :
    (∀ p ∈ upsertedPoints (upload_knowledge_base_to_qdrant collectionExists
        recreate encode sembed B Bs msgs).1, p.id ∈ msgs.map KBRow.id)
    ∧ (∀ (c : Collection δ σ) (p : QPoint δ σ), p.id ∈ c.ids →
        (upsertPoint c p).ids = c.ids
        ∧ (upsertPoint c p).pointOf p.id = some p.data)
    ∧ (∀ ps : List (QPoint δ σ),
        upsertAll (upsertAll c₀ ps) ps = upsertAll c₀ ps)
    ∧ runState (runState c₀ collectionExists recreate encode sembed B Bs msgs)
        collectionExists recreate encode sembed B Bs msgs
      = runState c₀ collectionExists recreate encode sembed B Bs msgs
    ∧ (runState (runState c₀ collectionExists recreate encode sembed B Bs msgs)
        collectionExists recreate encode sembed B Bs msgs).ids.length
      = (runState c₀ collectionExists recreate encode sembed B Bs
          msgs).ids.length := by
  refine ⟨?_, ?_, fun ps => upsertAll_idem c₀ ps,
    runState_rerun collectionExists recreate encode sembed B Bs msgs c₀, ?_⟩
  · intro p hp
    have hmem : ∀ q ∈ upsertedPoints (upload_knowledge_base_to_qdrant
        collectionExists recreate encode sembed B Bs msgs).1,
        q ∈ upsertedPoints (ingestBatches encode sembed Bs (chunks B msgs)).1 := by
      intro q hq
      unfold upload_knowledge_base_to_qdrant at hq
      by_cases hm : msgs.isEmpty = true
      · rw [if_pos hm] at hq
        simp [upsertedPoints] at hq
      · rw [if_neg hm] at hq
        dsimp only at hq
        rcases h2 : (ingestBatches encode sembed Bs (chunks B msgs)).2 with _ | e <;>
          rw [h2] at hq <;> dsimp only at hq <;>
          rw [upsertedPoints_append] at hq
        · rw [upsertedPoints_append] at hq
          rcases List.mem_append.mp hq with h1 | h1
          · rcases List.mem_append.mp h1 with h3 | h3
            · exfalso
              revert h3
              cases recreate <;> cases collectionExists <;>
                simp [upsertedPoints]
            · exact h3
          · simp [upsertedPoints] at h1
        · rcases List.mem_append.mp hq with h1 | h1
          · exfalso
            revert h1
            cases recreate <;> cases collectionExists <;> simp [upsertedPoints]
          · exact h1
    obtain ⟨batch, hb, m, hmm, hid⟩ :=
      ingest_points_mem encode sembed Bs (chunks B msgs) p (hmem p hp)
    rw [hid]
    exact List.mem_map_of_mem KBRow.id (chunks_mem_subset B msgs batch hb m hmm)
  · intro c p hpc
    unfold upsertPoint
    refine ⟨by rw [if_pos hpc], by simp⟩
  · rw [runState_rerun collectionExists recreate encode sembed B Bs msgs c₀]

/-- Witness for C6 at a concrete run: the single upserted point's id is the
message id, and the second-run state equals the first-run state. -/
theorem upsert_idempotent_and_point_identity_witness :
    (∀ p ∈ upsertedPoints (upload_knowledge_base_to_qdrant false true
        encodeNat sembedNat 1 1 [kbRowEx]).1, p.id ∈ [kbRowEx].map KBRow.id)
    ∧ runState (runState (emptyCollection : Collection ℕ ℕ) false true
        encodeNat sembedNat 1 1 [kbRowEx]) false true encodeNat sembedNat 1 1
        [kbRowEx]
      = runState emptyCollection false true encodeNat sembedNat 1 1 [kbRowEx] :=
  ⟨(upsert_idempotent_and_point_identity false true encodeNat sembedNat 1 1
      [kbRowEx] emptyCollection).1,
   (upsert_idempotent_and_point_identity false true encodeNat sembedNat 1 1
      [kbRowEx] emptyCollection).2.2.2.1⟩

/-! ## The sms import (`sms_db_to_knowledge_base` in
`src/sms_to_knowledge_base.py`)

Modelled from the point where the raw rows have been fetched from `sms.db`
(`SELECT ROWID, text, is_from_me, date ... ORDER BY date ASC`).  The
wall-clock arithmetic `coredata_epoch + timedelta(seconds=ts)` and
`datetime.isoformat()` are kept abstract as a time origin `epoch : ℚ`
(absolute seconds) and a rendering function `isoRender : ℚ → String`; the
numeric transformation itself — nanoseconds divided by `1e9` — is exact over
`ℚ`. -/

/-- A raw row of the joined `message`/`handle` query: `ROWID`, `text`,
`is_from_me`, and `date` in nanoseconds since the CoreData epoch
(2001-01-01). -/
structure RawRow where
  rowid : ℤ
  text : Option String
  is_from_me : ℤ
  date : ℤ
deriving DecidableEq, Repr

/-- The first pass of `sms_db_to_knowledge_base` for one row:
`timestamp_in_seconds = date_coredata / 1_000_000_000.0`;
`message_datetime = coredata_epoch + timedelta(seconds=timestamp_in_seconds)`;
the prepared dict stores the ROWID, `str(text) if text is not None else ''`,
`bool(is_from_me)`, `message_datetime.isoformat()`, and the converted
seconds. -/
def prepMessage (isoRender : ℚ → String) (epoch : ℚ) (r : RawRow) : Msg :=
  { original_id := r.rowid,
    text := r.text.getD "",
    is_from_me := r.is_from_me != 0,
    date := isoRender (epoch + (r.date : ℚ) / 1000000000),
    timestamp_seconds := (r.date : ℚ) / 1000000000,
    conversation_id := none }

/-- A tuple of `batch_insert_data`, in the insert column order
`(id, conversation_id, text, is_from_me, date_iso, timestamp_seconds)`. -/
structure InsertRow where
  id : String
  conversation_id : String
  text : String
  is_from_me : ℤ
  date_iso : String
  timestamp_seconds : ℚ
deriving DecidableEq, Repr

/-- Python `int(bool)`. -/
def boolToInt (b : Bool) : ℤ := if b then 1 else 0

/-- The tuple appended to `batch_insert_data` for the `i`-th processed
message (`str(uuid.uuid4())` modelled as `uuids i`). -/
def insertRowOf (uuids : ℕ → String) (i : ℕ) (msg : Msg) : InsertRow :=
  { id := uuids i,
    conversation_id := msg.conversation_id.getD "",
    text := msg.text,
    is_from_me := boolToInt msg.is_from_me,
    date_iso := msg.date,
    timestamp_seconds := msg.timestamp_seconds }

/-- `sms_db_to_knowledge_base` from the fetched raw rows to the rows inserted
into `messages`: empty fetch raises `ValueError` before anything is inserted
(modelled as the empty insert list); otherwise prepare every message,
assign conversation ids, and build the insert tuples in order. -/
def sms_db_to_knowledge_base (isoRender : ℚ → String) (epoch : ℚ)
    (uuids : ℕ → String) (conversation_gap_minutes : ℚ)
    (raw : List RawRow) : List InsertRow :=
  if raw.isEmpty then []
  else
    (assign_conversation_ids (raw.map (prepMessage isoRender epoch))
      conversation_gap_minutes).mapIdx (fun i msg => insertRowOf uuids i msg)

theorem assign_get_eq (msgs : List Msg) (G : ℚ) (i : ℕ)
    (h : i < (assign_conversation_ids msgs G).length) (h2 : i < msgs.length) :
    (assign_conversation_ids msgs G).get ⟨i, h⟩
      = setConv (msgs.get ⟨i, h2⟩)
          (convIndexSpec G (msgs.map Msg.timestamp_seconds) i) := by
  have he := assign_elem msgs G i
  rw [List.getElem?_eq_getElem h2, Option.map_some', List.getElem?_eq_getElem h] at he
  rw [List.get_eq_getElem, List.get_eq_getElem]
  exact Option.some_inj.mp he

/-- C9: for every imported raw message with `date` in nanoseconds since the
2001-01-01 reference epoch, the stored `timestamp_seconds` is exactly
`ns / 1e9` and the stored `date_iso` is exactly the ISO rendering of
`epoch + timestamp_seconds`; no other transformation touches the timestamp
on the way to the insert (conversation-id assignment changes only
`conversation_id`). -/
theorem timestamp_conversion_exact (isoRender : ℚ → String) (epoch : ℚ)
    (uuids : ℕ → String) (G : ℚ) (raw : List RawRow) (i : ℕ)
    (hi : i < raw.length) :
    (sms_db_to_knowledge_base isoRender epoch uuids G raw).length = raw.length
    ∧ ∀ h : i < (sms_db_to_knowledge_base isoRender epoch uuids G raw).length,
        ((sms_db_to_knowledge_base isoRender epoch uuids G raw).get
            ⟨i, h⟩).timestamp_seconds
          = ((raw.get ⟨i, hi⟩).date : ℚ) / 1000000000
        ∧ ((sms_db_to_knowledge_base isoRender epoch uuids G raw).get
            ⟨i, h⟩).date_iso
          = isoRender (epoch + ((raw.get ⟨i, hi⟩).date : ℚ) / 1000000000) := by
  have hne : raw.isEmpty = false := by
    cases raw with
    | nil => simp at hi
    | cons a l => rfl
  have hlen : (sms_db_to_knowledge_base isoRender epoch uuids G raw).length
      = raw.length := by
    unfold sms_db_to_knowledge_base
    rw [hne]
    simp [List.length_mapIdx, assign_length]
  refine ⟨hlen, fun h => ?_⟩
  have hset : (sms_db_to_knowledge_base isoRender epoch uuids G raw).get ⟨i, h⟩
      = insertRowOf uuids i
          (setConv ((raw.map (prepMessage isoRender epoch)).get
              ⟨i, by simpa using hi⟩)
            (convIndexSpec G
              ((raw.map (prepMessage isoRender epoch)).map Msg.timestamp_seconds)
              i)) := by
    have hmain : sms_db_to_knowledge_base isoRender epoch uuids G raw
        = (assign_conversation_ids (raw.map (prepMessage isoRender epoch)) G).mapIdx
            (fun j msg => insertRowOf uuids j msg) := by
      unfold sms_db_to_knowledge_base
      rw [hne]
      rfl
    have hia : i < (assign_conversation_ids
        (raw.map (prepMessage isoRender epoch)) G).length := by
      rw [assign_length]
      simpa using hi
    have h' : i < ((assign_conversation_ids (raw.map (prepMessage isoRender epoch))
        G).mapIdx (fun j msg => insertRowOf uuids j msg)).length := by
      rw [List.length_mapIdx]
      exact hia
    have hg := List.get_mapIdx
      (assign_conversation_ids (raw.map (prepMessage isoRender epoch)) G)
      (fun j msg => insertRowOf uuids j msg) i hia h'
    have h1 : (sms_db_to_knowledge_base isoRender epoch uuids G raw)[i]?
        = some ((sms_db_to_knowledge_base isoRender epoch uuids G raw).get ⟨i, h⟩) := by
      rw [List.get_eq_getElem]
      exact List.getElem?_eq_getElem h
    have h2' : (sms_db_to_knowledge_base isoRender epoch uuids G raw)[i]?
        = some (insertRowOf uuids i
          (setConv ((raw.map (prepMessage isoRender epoch)).get
              ⟨i, by simpa using hi⟩)
            (convIndexSpec G
              ((raw.map (prepMessage isoRender epoch)).map Msg.timestamp_seconds)
              i))) := by
      conv_lhs => rw [hmain]
      rw [List.getElem?_eq_getElem h']
      show some (((assign_conversation_ids (raw.map (prepMessage isoRender epoch))
        G).mapIdx (fun j msg => insertRowOf uuids j msg)).get ⟨i, h'⟩) = _
      rw [hg, assign_get_eq _ _ _ hia (by simpa using hi)]
    exact Option.some_inj.mp (h1.symm.trans h2')
  rw [hset]
  have hpm : (raw.map (prepMessage isoRender epoch)).get ⟨i, by simpa using hi⟩
      = prepMessage isoRender epoch (raw.get ⟨i, hi⟩) := by
    simp [List.get_eq_getElem]
  rw [hpm]
  exact ⟨rfl, rfl⟩

/-- A concrete raw row: 2 000 000 000 ns = 2 s after the reference epoch. -/
def rawEx : RawRow :=
  { rowid := 1, text := some "hi", is_from_me := 1, date := 2000000000 }

/-- A concrete rendering function for the witness. -/
def isoEx : ℚ → String := fun _ => "2001-01-01T00:00:02"

/-- A concrete uuid supply for the witness. -/
def uuidsEx : ℕ → String := fun _ => "uuid-0"

/-- Witness for C9 at a one-row import. -/
theorem timestamp_conversion_exact_witness :
    ((sms_db_to_knowledge_base isoEx 0 uuidsEx 30 [rawEx]).get
        ⟨0, by decide⟩).timestamp_seconds = (rawEx.date : ℚ) / 1000000000
    ∧ ((sms_db_to_knowledge_base isoEx 0 uuidsEx 30 [rawEx]).get
        ⟨0, by decide⟩).date_iso
      = isoEx (0 + (rawEx.date : ℚ) / 1000000000) := by
  have h := timestamp_conversion_exact isoEx 0 uuidsEx 30 [rawEx] 0 (by decide)
  exact ⟨(h.2 (by decide)).1, (h.2 (by decide)).2⟩

end EchoChat
